import Mathlib

/-!
Verification of the ShellCheck lint-orchestration core of the
`vscode-shell` extension, by shallow embedding of the relevant
TypeScript functions into Lean.

Conventions:
* JavaScript strings are embedded as `List Char` wherever proofs need
  structural induction, and as Lean `String` where only concatenation
  matters.  All text handled by the embedded functions is ASCII, so the
  per-character `Char.toLower` / `Char.isWhitespace` used here agree
  with the JavaScript `toLowerCase` / `\s` semantics on the inputs of
  interest.
* `Map` objects keyed by URI strings are embedded as functions
  `String → Option _`; `Set` objects as `List`s queried with
  `contains`.
* Asynchronous code is embedded as explicit state-passing: the
  provider's mutable fields become a state record and each event
  handler a state-transition function.
-/

namespace VscodeShell

/-! ## Shared character-list helpers (JS string primitives) -/

/-- JS `String.prototype.indexOf` over character lists: index of the first
occurrence of `pat` in `s`, `none` when absent. -/
def firstIndexOfList (pat : List Char) : List Char → Option Nat
  | [] => if pat.isPrefixOf ([] : List Char) then some 0 else none
  | c :: rest =>
    if pat.isPrefixOf (c :: rest) then some 0
    else (firstIndexOfList pat rest).map (· + 1)

/-- JS `String.prototype.includes` over character lists. -/
def containsList (pat s : List Char) : Bool :=
  (firstIndexOfList pat s).isSome

/-- Whitespace test used for JS `\s` / `trim` on the ASCII inputs handled
by the extension. -/
def isWsChar (c : Char) : Bool :=
  c.isWhitespace

/-- Removes trailing whitespace (the tail half of JS `trim`). -/
def dropTrailingWs : List Char → List Char
  | [] => []
  | c :: rest =>
    match dropTrailingWs rest with
    | [] => if isWsChar c then [] else [c]
    | x :: xs => c :: x :: xs

/-- JS `String.prototype.trim` over character lists. -/
def trimList (l : List Char) : List Char :=
  dropTrailingWs (l.dropWhile isWsChar)

/-- JS `String.prototype.toLowerCase` over character lists (ASCII). -/
def toLowerList (l : List Char) : List Char :=
  l.map Char.toLower

/-- Splits a character list at every occurrence of `sep`
(JS `String.prototype.split` with a single-character separator). -/
def splitOnCharList (sep : Char) : List Char → List (List Char)
  | [] => [[]]
  | c :: rest =>
    match splitOnCharList sep rest with
    | [] => [[]]
    | h :: t => if c = sep then [] :: h :: t else (c :: h) :: t

/-! ## C4 — lint argument vector (`runLint`, linter.ts)

`runLint` builds the argument vector for the external `shellcheck`
process.  `outputFormat` is `parser.outputFormat`, `exclude` the
settings' exclusion list, `fileExt` the result of
`path.extname(textDocument.fileName)`, and `customArgs` the
user-supplied extra arguments. -/

/-- Embedding of the argument-vector construction in `runLint`:
`["-f", fmt]`, then `["-e", exclude.join(",")]` when the exclusion list
is non-empty, then `["-s", ext-without-dot]` for the known dialect
extensions, then the custom arguments, then `"-"`. -/
def buildShellCheckArgs (outputFormat : String) (exclude : List String)
    (fileExt : String) (customArgs : List String) : List String :=
  let args := ["-f", outputFormat]
  let args :=
    if exclude.length > 0 then args ++ ["-e", String.intercalate "," exclude] else args
  let args :=
    if fileExt = ".bash" ∨ fileExt = ".ksh" ∨ fileExt = ".dash" then
      args ++ ["-s", fileExt.drop 1]
    else args
  let args := if customArgs.length > 0 then args ++ customArgs else args
  args ++ ["-"]

/-! ## C5 / C10 — diagnostic reconciliation (`setResultCollections`, linter.ts) -/

/-- A position in a document (vscode `Position`). -/
structure Pos where
  line : Nat
  character : Nat
deriving DecidableEq

/-- A source range (vscode `Range`); `startPos`/`endPos` embed the
`start`/`end` fields. -/
structure SrcRange where
  startPos : Pos
  endPos : Pos
deriving DecidableEq

/-- One analysis finding (the fields of a parsed ShellCheck diagnostic
that the embedded functions inspect). -/
structure DiagnosticE where
  range : SrcRange
  message : String
  code : Option String
deriving DecidableEq

/-- One entry of the parser's result list: a diagnostic plus an optional
code action (the action is opaque to `setResultCollections`, embedded
here as its title). -/
structure ParseResultE where
  diagnostic : DiagnosticE
  codeAction : Option String
deriving DecidableEq

/-- The provider's two per-document result stores: the vscode
`DiagnosticCollection` and the `codeActionCollection` map, both keyed by
the document URI string. -/
structure ResultState where
  diagnostics : String → Option (List DiagnosticE)
  codeActions : String → Option (List ParseResultE)

/-- Embedding of `ShellCheckProvider.setResultCollections`: a `null` or
empty result list deletes both entries for the URI, otherwise both
entries are overwritten. -/
def setResultCollections (s : ResultState) (uri : String)
    (results : Option (List ParseResultE)) : ResultState :=
  match results with
  | none =>
    { diagnostics := fun k => if k = uri then none else s.diagnostics k
      codeActions := fun k => if k = uri then none else s.codeActions k }
  | some [] =>
    { diagnostics := fun k => if k = uri then none else s.diagnostics k
      codeActions := fun k => if k = uri then none else s.codeActions k }
  | some rs =>
    { diagnostics := fun k =>
        if k = uri then some (rs.map (·.diagnostic)) else s.diagnostics k
      codeActions := fun k => if k = uri then some rs else s.codeActions k }

/-! ## C1 — fix-all aggregation (`mergeEdits` / `buildFixAllAction`, link.ts) -/

/-- vscode `Position.isBeforeOrEqual`. -/
def posLE (a b : Pos) : Bool :=
  a.line < b.line || (a.line = b.line && a.character ≤ b.character)

/-- vscode `Position.isBefore` (strict order). -/
def posLT (a b : Pos) : Bool :=
  a.line < b.line || (a.line = b.line && a.character < b.character)

/-- vscode `Range.contains(range)`: the argument lies entirely within the
receiver. -/
def rangeContainsRange (outer inner : SrcRange) : Bool :=
  posLE outer.startPos inner.startPos && posLE inner.endPos outer.endPos

/-- Two ranges overlap when each one starts strictly before the other
ends, i.e. their intersection is non-degenerate; such edit pairs
conflict when applied as one `WorkspaceEdit`. -/
def rangesOverlap (a b : SrcRange) : Bool :=
  posLT a.startPos b.endPos && posLT b.startPos a.endPos

/-- A single-range replacement (vscode `TextEdit`). -/
structure TextEditE where
  range : SrcRange
  newText : String
deriving DecidableEq

/-- Embedding of `mergeEdits` (link.ts) for one document URI: the
candidate edits of `source` are appended to `target`, each accepted
unless some edit already in `target` *contains* the candidate's range
(`existingEdit.range.contains(edit.range)`); the check runs against the
pre-merge `existing` list only. -/
def mergeEdits (target source : List TextEditE) : List TextEditE :=
  target ++ source.filter
    (fun e => !(target.any (fun ex => rangeContainsRange ex.range e.range)))

/-- Embedding of the aggregation loop of `buildFixAllAction` (link.ts):
every collected action's edit list is merged into the aggregate in
discovery order. -/
def buildFixAllEdit (actionEdits : List (List TextEditE)) : List TextEditE :=
  actionEdits.foldl mergeEdits []

/-! ## C9 — exclusion-list normalisation (`getWorkspaceSettings`, settings.ts) -/

/-- Exactly four ASCII digits (the capture group of
`validErrorCodePattern = /^(?:SC)?(\d{4})$/`). -/
def fourDigits (l : List Char) : Bool :=
  l.length == 4 && l.all Char.isDigit

/-- Embedding of one iteration of the exclude-filter loop in
`getWorkspaceSettings`: `validErrorCodePattern.exec(pattern)` yields the
four-digit capture (optionally preceded by a literal `SC`), or no match. -/
def matchValidErrorCode (s : List Char) : Option (List Char) :=
  if ['S', 'C'].isPrefixOf s && fourDigits (s.drop 2) then some (s.drop 2)
  else if fourDigits s then some s
  else none

/-- Embedding of the exclude-filter loop of `getWorkspaceSettings`: keep
the captured digit group of every matching entry, drop the rest. -/
def filterExcludes (patterns : List (List Char)) : List (List Char) :=
  patterns.filterMap matchValidErrorCode

/-! ## C3 — debounced task scheduler

Modelled from the spec: the `ThrottledDelayer` class
(`./utils/async.js`, used by `triggerLint` in linter.ts) is not among
the provided sources; the state machine below follows spec §4.1
(`Idle | TimerPending | Running | RunningWithPendingRerun`, with a
pending timer restarted on re-trigger and an in-flight run recording a
single rerun with the latest task). -/

/-- Modelled from the spec: the per-key scheduler state of §4.1/§9 for
the missing `ThrottledDelayer`. -/
inductive DelayerState (α : Type) where
  | idle
  | timerPending (task : α)
  | running
  | runningPendingRerun (task : α)
deriving DecidableEq

/-- Events driving the scheduler: a `trigger(task)` call, expiry of the
debounce timer, and completion of the in-flight task. -/
inductive DelayerEvent (α : Type) where
  | trigger (task : α)
  | timerFire
  | taskComplete
deriving DecidableEq

/-- Modelled from the spec: one scheduler transition (§4.1).  The second
component is the task that starts executing at this event, if any. -/
def delayerStep {α : Type} :
    DelayerState α → DelayerEvent α → DelayerState α × Option α
  | .idle, .trigger t => (.timerPending t, none)
  | .timerPending _, .trigger t => (.timerPending t, none)
  | .running, .trigger t => (.runningPendingRerun t, none)
  | .runningPendingRerun _, .trigger t => (.runningPendingRerun t, none)
  | .timerPending t, .timerFire => (.running, some t)
  | s, .timerFire => (s, none)
  | .running, .taskComplete => (.idle, none)
  | .runningPendingRerun t, .taskComplete => (.running, some t)
  | s, .taskComplete => (s, none)

/-- Runs the scheduler over an event list, collecting the tasks that
start executing, in order. -/
def delayerRun {α : Type} :
    DelayerState α → List (DelayerEvent α) → DelayerState α × List α
  | s, [] => (s, [])
  | s, e :: rest =>
    let step := delayerStep s e
    let tail := delayerRun step.1 rest
    (tail.1, step.2.toList ++ tail.2)

/-- The last of `t :: ts`, by structural recursion (helper for stating
which task of a burst survives). -/
def lastTask {α : Type} (t : α) : List α → α
  | [] => t
  | x :: xs => lastTask x xs

/-! ## C2 — the missing-executable notification
(`showShellCheckError` / `handleDidChangeConfiguration`, linter.ts) -/

/-- A parsed semantic version (the npm `semver` `SemVer` fields the
extension uses: the numeric triple plus prerelease / build identifier
lists). -/
structure SemVer where
  major : Nat
  minor : Nat
  patch : Nat
  prerelease : List (List Char)
  build : List (List Char)
deriving DecidableEq

/-- The failure half of the `ToolStatus` union in linter.ts. -/
inductive UnavailableReason where
  | executableNotFound
  | executionFailed
deriving DecidableEq

/-- The `ToolStatus` union of linter.ts: `{ ok: true; version }` or
`{ ok: false; reason }`. -/
inductive ToolStatusE where
  | ok (version : SemVer)
  | unavailable (reason : UnavailableReason)
deriving DecidableEq

/-- The provider state relevant to the missing-executable notification:
the `toolStatusByPath` cache and the `notifiedMissingExecutable` set
(`settingsByUri` plays no role in whether the notification fires). -/
structure NotifierState where
  toolStatusByPath : List (String × ToolStatusE)
  notifiedMissingExecutable : List String
deriving DecidableEq

/-- The two event kinds the claim is about: `probeFail p` is an
`updateConfiguration` call for a document whose settings resolve to
executable path `p` while the `getToolVersion` probe throws a
missing-executable error; `configChange` is a configuration change for
which `checkIfConfigurationChanged` returns true. -/
inductive LintEvent where
  | probeFail (path : String)
  | configChange
deriving DecidableEq

/-- True when the probe actually runs and fails for `p` at state `s`
(`updateConfiguration` probes only paths without a cached status). -/
def effectiveProbeFail (s : NotifierState) (p : String) : LintEvent → Bool
  | .probeFail q => q == p && (s.toolStatusByPath.lookup q).isNone
  | .configChange => false

/-- Embedding of one event: for `probeFail p`, `updateConfiguration`
skips paths with a cached status; otherwise `showShellCheckError`
returns early when `notifiedMissingExecutable` already has the path and
else shows the notification and records the path, and the status cache
gains the `executableNotFound` entry.  For `configChange`,
`handleDidChangeConfiguration` clears `settingsByUri` and
`toolStatusByPath` — and nothing else.  The second component is the
notification shown, if any. -/
def notifierStep (s : NotifierState) : LintEvent → NotifierState × Option String
  | .probeFail p =>
    if (s.toolStatusByPath.lookup p).isSome then (s, none)
    else
      let suppressed := s.notifiedMissingExecutable.contains p
      ({ toolStatusByPath :=
           (p, ToolStatusE.unavailable .executableNotFound) :: s.toolStatusByPath
         notifiedMissingExecutable :=
           if suppressed then s.notifiedMissingExecutable
           else p :: s.notifiedMissingExecutable },
        if suppressed then none else some p)
  | .configChange =>
    ({ toolStatusByPath := []
       notifiedMissingExecutable := s.notifiedMissingExecutable }, none)

/-- Per-configuration-epoch report for path `p`: for each epoch
(segments separated by `configChange`), how many notifications for `p`
were shown and whether an effective missing-executable failure for `p`
occurred in it. -/
def notifEpochsAux (p : String) :
    NotifierState → Nat × Bool → List LintEvent → List (Nat × Bool)
  | _, acc, [] => [acc]
  | s, acc, .configChange :: rest =>
    acc :: notifEpochsAux p (notifierStep s .configChange).1 (0, false) rest
  | s, acc, .probeFail q :: rest =>
    notifEpochsAux p (notifierStep s (.probeFail q)).1
      (acc.1 + (if (notifierStep s (.probeFail q)).2 = some p then 1 else 0),
        acc.2 || effectiveProbeFail s p (.probeFail q)) rest

/-- The claim as stated, as a proposition: starting from a fresh
provider, in every configuration epoch and for every path, the
notification fires exactly once when the epoch contains an effective
missing-executable failure for that path, and never otherwise. -/
def missingExecNotifiedOncePerEpoch : Prop :=
  ∀ (events : List LintEvent) (p : String),
    ∀ pr ∈ notifEpochsAux p ⟨[], []⟩ (0, false) events,
      pr.1 = if pr.2 then 1 else 0

/-- Total number of notifications shown for path `p` over a whole event
sequence. -/
def notifCount (p : String) : NotifierState → List LintEvent → Nat
  | _, [] => 0
  | s, e :: rest =>
    (if (notifierStep s e).2 = some p then 1 else 0)
      + notifCount p (notifierStep s e).1 rest

/-- Whether an effective missing-executable failure for `p` occurs
anywhere in the event sequence. -/
def hadEffectiveFailure (p : String) : NotifierState → List LintEvent → Bool
  | _, [] => false
  | s, e :: rest =>
    effectiveProbeFail s p e || hadEffectiveFailure p (notifierStep s e).1 rest

/-! ## C8 — suppression-comment insertion (`disableCheckForLine`, linter.ts)

A document is embedded as its list of lines (each line a character list
holding no newline). -/

/-- vscode `TextLine.firstNonWhitespaceCharacterIndex`: offset of the
first non-whitespace character, or the line length when the line is
entirely whitespace. -/
def firstNonWhitespaceCharacterIndex (line : List Char) : Nat :=
  (line.takeWhile isWsChar).length

/-- Applies a vscode insert `TextEdit` at `(lineNo, col)` to a document
given as lines: the insertion text is spliced into the target line and
the result re-split at newline characters
(`workspace.applyEdit` on `TextEdit.insert`). -/
def applyInsert (docLines : List (List Char)) (lineNo col : Nat)
    (text : List Char) : List (List Char) :=
  let line := docLines.getD lineNo []
  docLines.take lineNo
    ++ splitOnCharList '\n' (line.take col ++ text ++ line.drop col)
    ++ docLines.drop (lineNo + 1)

/-- Embedding of `ShellCheckProvider.disableCheckForLine`: the edit
inserts `# shellcheck disable=<ruleId>\n<indent>` at position
`(line, firstNonWhitespaceCharacterIndex)` of the diagnostic's start
line, `indent` being `targetLine.text.slice(0, max(0, idx))`. -/
def disableCheckForLine (docLines : List (List Char)) (lineNo : Nat)
    (ruleId : List Char) : List (List Char) :=
  let targetLine := docLines.getD lineNo []
  let k := firstNonWhitespaceCharacterIndex targetLine
  let indent := targetLine.take (max 0 k)
  applyInsert docLines lineNo k
    ("# shellcheck disable=".toList ++ ruleId ++ '\n' :: indent)

/-! ## C7 — version probing (`parseToolVersion` / `getToolVersion`,
tool-check.ts) -/

/-- JS `String.prototype.split` with a single-character-class regex
(such as `/\s/u`), over character lists. -/
def splitOnPredList (p : Char → Bool) : List Char → List (List Char)
  | [] => [[]]
  | c :: rest =>
    match splitOnPredList p rest with
    | [] => [[]]
    | h :: t => if p c then [] :: h :: t else (c :: h) :: t

/-- `token.startsWith("v") ? token.slice(1) : token`. -/
def stripLeadingV : List Char → List Char
  | 'v' :: rest => rest
  | other => other

/-- Decimal value of a digit string. -/
def digitsVal (l : List Char) : Nat :=
  l.foldl (fun acc c => acc * 10 + (c.toNat - '0'.toNat)) 0

/-- npm semver `NUMERICIDENTIFIER`: `0|[1-9]\d*`. -/
def numericIdentOk (l : List Char) : Bool :=
  !l.isEmpty && l.all Char.isDigit && (!(l.head? == some '0') || l == ['0'])

/-- The `[0-9A-Za-z-]` character class of semver identifiers. -/
def isAlnumHyphen (c : Char) : Bool :=
  c.isAlpha || c.isDigit || c = '-'

/-- npm semver `BUILDIDENTIFIER`: `[0-9A-Za-z-]+`. -/
def buildIdOk (l : List Char) : Bool :=
  !l.isEmpty && l.all isAlnumHyphen

/-- npm semver `PRERELEASEIDENTIFIER`: a numeric identifier or an
alphanumeric-hyphen identifier holding at least one non-digit. -/
def prereleaseIdOk (l : List Char) : Bool :=
  numericIdentOk l
    || (!l.isEmpty && l.all isAlnumHyphen && l.any (fun c => !c.isDigit))

/-- Splits at the first occurrence of `sep`: `some (before, after)`
when present. -/
def splitFirst (sep : Char) : List Char → Option (List Char × List Char)
  | [] => none
  | c :: rest =>
    if c = sep then some ([], rest)
    else (splitFirst sep rest).map (fun pr => (c :: pr.1, pr.2))

/-- Embedding of npm `semver.parse` in strict mode, as used by
`parseToolVersion`: trims, enforces the 256-character cap, accepts the
grammar `v? major.minor.patch (-prerelease)? (+build)?` with
`Number.MAX_SAFE_INTEGER`-bounded numeric components, and returns
`none` wherever `semver.parse` returns `null`. -/
def semverParse (input : List Char) : Option SemVer :=
  if 256 < input.length then none
  else
    let s := stripLeadingV (trimList input)
    let core := match splitFirst '+' s with
      | some pr => pr.1
      | none => s
    let buildPart := match splitFirst '+' s with
      | some pr => some pr.2
      | none => none
    let main := match splitFirst '-' core with
      | some pr => pr.1
      | none => core
    let prePart := match splitFirst '-' core with
      | some pr => some pr.2
      | none => none
    match splitOnCharList '.' main with
    | [ma, mi, pa] =>
      if numericIdentOk ma && numericIdentOk mi && numericIdentOk pa then
        if digitsVal ma ≤ 9007199254740991 ∧ digitsVal mi ≤ 9007199254740991
            ∧ digitsVal pa ≤ 9007199254740991 then
          let preIds := match prePart with
            | none => some ([] : List (List Char))
            | some pp =>
              let ids := splitOnCharList '.' pp
              if ids.all prereleaseIdOk then some ids else none
          let buildIds := match buildPart with
            | none => some ([] : List (List Char))
            | some bp =>
              let ids := splitOnCharList '.' bp
              if ids.all buildIdOk then some ids else none
          match preIds, buildIds with
          | some pre, some bld =>
            some ⟨digitsVal ma, digitsVal mi, digitsVal pa, pre, bld⟩
          | _, _ => none
        else none
      else none
    | _ => none

/-- The `prefix` constant of `parseToolVersion`. -/
def versionMarker : List Char := "version:".toList

/-- Embedding of `parseToolVersion` (tool-check.ts): locate `version:`
case-insensitively, trim the remainder, split it at whitespace and take
the first piece, strip an optional leading `v`, and parse as semver;
failures become `Except.error` (the thrown `Error`), which
`getToolVersion` propagates to its caller, so no `Ready` status can be
produced from them. -/
def parseToolVersion (stdout : List Char) : Except (List Char) SemVer :=
  let lower := toLowerList stdout
  match firstIndexOfList versionMarker lower with
  | none => .error ("Unexpected response from ShellCheck: ".toList ++ stdout)
  | some i =>
    let remainder := trimList (stdout.drop (i + versionMarker.length))
    let token := (splitOnPredList isWsChar remainder).headD []
    let normalized := stripLeadingV token
    match semverParse normalized with
    | none => .error ("Unable to parse ShellCheck version: ".toList ++ token)
    | some ver => .ok ver

/-- The claim's version token: the first whitespace-delimited token
after the (case-insensitive) `version:` marker, with an optional
leading `v` stripped; `none` when the marker is absent or nothing
follows it. -/
def specVersionToken (stdout : List Char) : Option (List Char) :=
  match firstIndexOfList versionMarker (toLowerList stdout) with
  | none => none
  | some i =>
    let tok := ((stdout.drop (i + versionMarker.length)).dropWhile
      isWsChar).takeWhile (fun c => !(isWsChar c))
    if tok = [] then none else some (stripLeadingV tok)

/-! ## C6 — failure classification (`errorLooksLikeMissingExecutable` /
`toolStatusByError`, linter.ts) -/

/-- The shape of an error thrown while invoking the tool.  `execa`
rejects with `Error` instances (so the `instanceof Error` test in
`toolStatusByError` holds), carrying: a `code` that may be a string or
a number, an `errno` likewise, a numeric `exitCode`, the captured
`stderr`/`stdout`, and the `shortMessage`/`originalMessage`/`message`
texts.  Absent (`undefined`) fields are `none`. -/
structure ExecError where
  code : Option ((List Char) ⊕ Int)
  errno : Option ((List Char) ⊕ Int)
  exitCode : Option Int
  stderr : Option (List Char)
  stdout : Option (List Char)
  shortMessage : Option (List Char)
  originalMessage : Option (List Char)
  message : List Char
deriving DecidableEq

/-- `typeof v === "string" ? v : undefined`. -/
def strVal : Option ((List Char) ⊕ Int) → Option (List Char)
  | some (.inl s) => some s
  | _ => none

/-- The numeric exit value inspected by the classifier:
`typeof err.code === "number" ? err.code : err.exitCode`. -/
def numericExitCodeOf (e : ExecError) : Option Int :=
  match e.code with
  | some (.inr n) => some n
  | _ => e.exitCode

/-- The `haystacks` array of `errorLooksLikeMissingExecutable`: the
string fields that are present and non-empty, lowercased. -/
def missingPhraseTexts (e : ExecError) : List (List Char) :=
  (([e.stderr, e.stdout, e.shortMessage, e.originalMessage,
      some e.message].filterMap id).filter
    (fun v => 0 < v.length)).map toLowerList

/-- The final phrase scan of `errorLooksLikeMissingExecutable`. -/
def haystackHasMissingPhrase (e : ExecError) : Bool :=
  (missingPhraseTexts e).any (fun text =>
    containsList "command not found".toList text
      || containsList "no such file or directory".toList text
      || containsList "is not recognized as an internal or external command".toList text
      || containsList "is not recognised as an internal or external command".toList text)

/-- Embedding of `errorLooksLikeMissingExecutable` (linter.ts): string
`code`/`errno` equal to `ENOENT` (`missingCodes`), then the numeric
exit code 127 or 9009, then the lowercased-haystack phrase scan. -/
def errorLooksLikeMissingExecutable (e : ExecError) : Bool :=
  if strVal e.code = some "ENOENT".toList ∨ strVal e.errno = some "ENOENT".toList then
    true
  else if numericExitCodeOf e = some 127 ∨ numericExitCodeOf e = some 9009 then
    true
  else haystackHasMissingPhrase e

/-- Embedding of `toolStatusByError` (linter.ts); every `execa`
rejection is an `Error` instance, so the `instanceof` guard holds on
the whole `ExecError` domain. -/
def toolStatusByError (e : ExecError) : ToolStatusE :=
  if errorLooksLikeMissingExecutable e then .unavailable .executableNotFound
  else .unavailable .executionFailed

/-- The claim's phrase list: `command not found`,
`no such file or directory`, and the OS-specific `not recognized`
variants. -/
def specMissingPhrases : List (List Char) :=
  ["command not found".toList, "no such file or directory".toList,
    "is not recognized as an internal or external command".toList,
    "is not recognised as an internal or external command".toList]

/-- The error's captured textual output and messages, per the claim. -/
def specCapturedTexts (e : ExecError) : List (List Char) :=
  [e.stderr, e.stdout, e.shortMessage, e.originalMessage,
    some e.message].filterMap id

/-- The claim's reading of the phrase condition: some captured text
contains (case-insensitively) one of the missing-command phrases. -/
def specCapturedTextHasPhrase (e : ExecError) : Bool :=
  (specCapturedTexts e).any
    (fun t => specMissingPhrases.any (fun ph => containsList ph (toLowerList t)))

/-- The claim's definition of "the error signals a missing executable":
an `ENOENT` error code, a missing-executable numeric exit code
(127 or 9009), or captured output containing a missing-command
phrase. -/
def specMissingExecSignal (e : ExecError) : Bool :=
  (strVal e.code == some "ENOENT".toList || strVal e.errno == some "ENOENT".toList)
    || (numericExitCodeOf e == some 127 || numericExitCodeOf e == some 9009)
    || specCapturedTextHasPhrase e

end VscodeShell

namespace VscodeShell

/-- C4: For every lint run, the argument vector is exactly the
output-format flag, the optional exclusion flag with comma-joined ids,
the optional dialect flag for `.bash`/`.ksh`/`.dash`, the custom
arguments verbatim, and the final stdin flag `-`. -/
theorem buildShellCheckArgs_shape (fmt : String) (exclude : List String)
    (fileExt : String) (customArgs : List String) :
    buildShellCheckArgs fmt exclude fileExt customArgs =
      ["-f", fmt]
        ++ (if exclude = [] then [] else ["-e", String.intercalate "," exclude])
        ++ (if fileExt = ".bash" ∨ fileExt = ".ksh" ∨ fileExt = ".dash" then
              ["-s", fileExt.drop 1]
            else [])
        ++ customArgs ++ ["-"] := by
  unfold buildShellCheckArgs
  by_cases hx : fileExt = ".bash" ∨ fileExt = ".ksh" ∨ fileExt = ".dash" <;>
    cases exclude <;> cases customArgs <;> simp [hx]

/-- C5: `setResultCollections` with `null` or `[]` removes both the
diagnostics entry and the cached code actions for the document key, and
with a non-empty list fully replaces both entries for that key. -/
theorem setResultCollections_replace (s : ResultState) (uri : String) :
    ((setResultCollections s uri none).diagnostics uri = none ∧
      (setResultCollections s uri none).codeActions uri = none) ∧
    ((setResultCollections s uri (some [])).diagnostics uri = none ∧
      (setResultCollections s uri (some [])).codeActions uri = none) ∧
    (∀ rs : List ParseResultE, rs ≠ [] →
      (setResultCollections s uri (some rs)).diagnostics uri
          = some (rs.map (·.diagnostic)) ∧
        (setResultCollections s uri (some rs)).codeActions uri = some rs) := by
  refine ⟨⟨?_, ?_⟩, ⟨?_, ?_⟩, ?_⟩
  · simp [setResultCollections]
  · simp [setResultCollections]
  · simp [setResultCollections]
  · simp [setResultCollections]
  · intro rs hrs
    cases rs with
    | nil => exact absurd rfl hrs
    | cons r rest => exact ⟨by simp [setResultCollections], by simp [setResultCollections]⟩

/-- Concrete instantiation of `setResultCollections_replace` on a
one-element result list. -/
theorem setResultCollections_replace_witness :
    ([⟨⟨⟨⟨0, 0⟩, ⟨0, 1⟩⟩, "msg", some "SC2086"⟩, none⟩] : List ParseResultE) ≠ [] ∧
      (setResultCollections ⟨fun _ => none, fun _ => none⟩ "file:///a.sh"
            (some [⟨⟨⟨⟨0, 0⟩, ⟨0, 1⟩⟩, "msg", some "SC2086"⟩, none⟩])).diagnostics
          "file:///a.sh"
        = some [⟨⟨⟨0, 0⟩, ⟨0, 1⟩⟩, "msg", some "SC2086"⟩] ∧
      (setResultCollections ⟨fun _ => none, fun _ => none⟩ "file:///a.sh"
            (some [⟨⟨⟨⟨0, 0⟩, ⟨0, 1⟩⟩, "msg", some "SC2086"⟩, none⟩])).codeActions
          "file:///a.sh"
        = some [⟨⟨⟨⟨0, 0⟩, ⟨0, 1⟩⟩, "msg", some "SC2086"⟩, none⟩] := by
  refine ⟨by simp, ?_, ?_⟩
  · exact ((setResultCollections_replace ⟨fun _ => none, fun _ => none⟩
      "file:///a.sh").2.2 _ (by simp)).1
  · exact ((setResultCollections_replace ⟨fun _ => none, fun _ => none⟩
      "file:///a.sh").2.2 _ (by simp)).2

/-- C10: `setResultCollections` only touches the entries of the URI it
is called with; every other document key keeps its stored diagnostics
and code actions. -/
theorem setResultCollections_frame (s : ResultState) (uri : String)
    (results : Option (List ParseResultE)) (k : String) (hk : k ≠ uri) :
    (setResultCollections s uri results).diagnostics k = s.diagnostics k ∧
      (setResultCollections s uri results).codeActions k = s.codeActions k := by
  cases results with
  | none => exact ⟨by simp [setResultCollections, hk], by simp [setResultCollections, hk]⟩
  | some rs =>
    cases rs with
    | nil => exact ⟨by simp [setResultCollections, hk], by simp [setResultCollections, hk]⟩
    | cons r rest =>
      exact ⟨by simp [setResultCollections, hk], by simp [setResultCollections, hk]⟩

/-- C1: evaluation of the fix-all aggregation at two partially
overlapping suggested fixes (ranges `[0:0, 0:5)` and `[0:3, 0:8)`).
`mergeEdits` only rejects a candidate whose range is fully *contained*
in an accepted range, so both edits end up in the aggregate even though
their ranges overlap — contradicting the claimed no-overlap invariant
(and the function's own doc comment, which says overlapping edits that
would conflict are ignored). -/
theorem buildFixAllEdit_keeps_overlapping_pair :
    buildFixAllEdit
        [[⟨⟨⟨0, 0⟩, ⟨0, 5⟩⟩, "A"⟩], [⟨⟨⟨0, 3⟩, ⟨0, 8⟩⟩, "B"⟩]]
      = [⟨⟨⟨0, 0⟩, ⟨0, 5⟩⟩, "A"⟩, ⟨⟨⟨0, 3⟩, ⟨0, 8⟩⟩, "B"⟩] ∧
    rangesOverlap ⟨⟨0, 0⟩, ⟨0, 5⟩⟩ ⟨⟨0, 3⟩, ⟨0, 8⟩⟩ = true ∧
    (⟨⟨0, 0⟩, ⟨0, 5⟩⟩ : SrcRange) ≠ ⟨⟨0, 3⟩, ⟨0, 8⟩⟩ := by
  refine ⟨?_, by decide, by decide⟩
  simp [buildFixAllEdit, mergeEdits, rangeContainsRange, posLE]

/-- Helper for C9: `matchValidErrorCode` only produces four-digit
strings. -/
theorem matchValidErrorCode_fourDigits {s d : List Char}
    (h : matchValidErrorCode s = some d) : fourDigits d = true := by
  unfold matchValidErrorCode at h
  split at h
  · rename_i hc
    rw [Bool.and_eq_true] at hc
    cases h
    exact hc.2
  · split at h
    · rename_i hc
      cases h
      exact hc
    · cases h

/-- C9: every entry of the normalised exclusion list is exactly four
digits; an entry `SC` + four digits contributes its digit part (prefix
stripped), a bare four-digit entry contributes itself, and an entry
that is not an optional `SC` followed by exactly four digits is
dropped. -/
theorem filterExcludes_normalised (cfg : List (List Char)) :
    (∀ s, s ∈ filterExcludes cfg → s.length = 4 ∧ ∀ c ∈ s, c.isDigit = true) ∧
    (∀ d, fourDigits d = true →
      matchValidErrorCode ('S' :: 'C' :: d) = some d ∧
        matchValidErrorCode d = some d) ∧
    (∀ s, (¬ ∃ d, fourDigits d = true ∧ (s = 'S' :: 'C' :: d ∨ s = d)) →
      matchValidErrorCode s = none) := by
  refine ⟨?_, ?_, ?_⟩
  · intro s hs
    obtain ⟨a, _, ha⟩ := List.mem_filterMap.mp hs
    have h4 := matchValidErrorCode_fourDigits ha
    unfold fourDigits at h4
    rw [Bool.and_eq_true] at h4
    obtain ⟨hlen, hall⟩ := h4
    exact ⟨by simpa using hlen, fun c hc => List.all_eq_true.mp hall c hc⟩
  · intro d hd
    constructor
    · unfold matchValidErrorCode
      have hpre : ['S', 'C'].isPrefixOf ('S' :: 'C' :: d) = true :=
        List.isPrefixOf_iff_prefix.mpr ⟨d, rfl⟩
      have hdrop : ('S' :: 'C' :: d).drop 2 = d := rfl
      rw [hdrop, hpre, hd]
      simp
    · have hnotsc : ¬ (['S', 'C'].isPrefixOf d && fourDigits (d.drop 2)) = true := by
        intro hcontra
        rw [Bool.and_eq_true] at hcontra
        obtain ⟨t, ht⟩ := List.isPrefixOf_iff_prefix.mp hcontra.1
        have hfd : fourDigits d = true := hd
        unfold fourDigits at hfd
        rw [Bool.and_eq_true] at hfd
        have hS : 'S'.isDigit = true :=
          List.all_eq_true.mp hfd.2 'S' (by rw [← ht]; simp)
        exact absurd hS (by decide)
      unfold matchValidErrorCode
      rw [if_neg (by simpa using hnotsc), if_pos hd]
  · intro s hno
    unfold matchValidErrorCode
    split
    · rename_i hc
      rw [Bool.and_eq_true] at hc
      obtain ⟨t, ht⟩ := List.isPrefixOf_iff_prefix.mp hc.1
      exact absurd ⟨s.drop 2, hc.2, Or.inl (by rw [← ht]; rfl)⟩ hno
    · split
      · rename_i h4
        exact absurd ⟨s, h4, Or.inr rfl⟩ hno
      · rfl

/-- Concrete instantiation of `filterExcludes_normalised`: the entry
`SC2086` survives as `2086`, which is four digits. -/
theorem filterExcludes_normalised_witness :
    ("2086".toList ∈ filterExcludes ["SC2086".toList, "badcode".toList]) ∧
      "2086".toList.length = 4 ∧ ∀ c ∈ "2086".toList, c.isDigit = true := by
  refine ⟨by decide, ?_⟩
  exact (filterExcludes_normalised ["SC2086".toList, "badcode".toList]).1
    "2086".toList (by decide)

/-- Helper for C3: `lastTask` agrees with `List.getLast`. -/
theorem lastTask_eq_getLast {α : Type} (t : α) (ts : List α) :
    lastTask t ts = (t :: ts).getLast (by simp) := by
  induction ts generalizing t with
  | nil => rfl
  | cons x xs ih => exact ih x

/-- Helper for C3: a burst of triggers arriving while a timer is pending
keeps collapsing the pending task to the latest call and starts nothing. -/
theorem delayerRun_triggers_pending {α : Type} (ts : List α) (t : α) :
    delayerRun (DelayerState.timerPending t)
        (ts.map DelayerEvent.trigger ++ [DelayerEvent.timerFire])
      = (DelayerState.running, [lastTask t ts]) := by
  induction ts generalizing t with
  | nil => rfl
  | cons t' rest ih => simpa [delayerRun, delayerStep, lastTask] using ih t'

/-- C3: for every non-empty burst of `trigger` calls for one document
key inside a single debounce window (no timer expiry in between),
settling the window executes exactly one task: the one supplied by the
last call of the burst. -/
theorem delayer_burst_runs_last {α : Type} (ts : List α) (h : ts ≠ []) :
    delayerRun DelayerState.idle
        (ts.map DelayerEvent.trigger ++ [DelayerEvent.timerFire])
      = (DelayerState.running, [ts.getLast h]) := by
  cases ts with
  | nil => exact absurd rfl h
  | cons t rest =>
    have h1 := delayerRun_triggers_pending rest t
    have h2 : (t :: rest).getLast h = lastTask t rest :=
      (lastTask_eq_getLast t rest).symm
    rw [h2]
    simpa [delayerRun, delayerStep] using h1

/-- Concrete instantiation of `delayer_burst_runs_last`: a burst of
three triggers runs only the third task. -/
theorem delayer_burst_runs_last_witness :
    ([3, 5, 7] : List Nat) ≠ [] ∧
      delayerRun DelayerState.idle
          (([3, 5, 7] : List Nat).map DelayerEvent.trigger ++ [DelayerEvent.timerFire])
        = (DelayerState.running, [7]) :=
  ⟨by decide, delayer_burst_runs_last [3, 5, 7] (by decide)⟩

/-- Helper for C7: predicate splitting never yields an empty segment
list. -/
theorem splitOnPredList_ne_nil (p : Char → Bool) (l : List Char) :
    splitOnPredList p l ≠ [] := by
  cases l with
  | nil => simp [splitOnPredList]
  | cons c t =>
    simp only [splitOnPredList]
    split
    · simp
    · split <;> simp

/-- Helper for C7: the first segment of a predicate split is the
longest prefix avoiding the separator class (so JS `split(/\s/u)[0]`
is `takeWhile` of the non-whitespace test). -/
theorem splitOnPredList_headD (p : Char → Bool) (l : List Char) :
    (splitOnPredList p l).headD [] = l.takeWhile (fun c => !(p c)) := by
  induction l with
  | nil => rfl
  | cons c t ih =>
    cases hs : splitOnPredList p t with
    | nil => exact absurd hs (splitOnPredList_ne_nil p t)
    | cons x xs =>
      rw [hs] at ih
      have ih' : x = t.takeWhile (fun c => !(p c)) := by simpa using ih
      by_cases hc : p c
      · simp [splitOnPredList, hs, hc, List.takeWhile_cons]
      · simp [splitOnPredList, hs, hc, List.takeWhile_cons, ← ih']

/-- Helper for C7: removing trailing whitespace does not change the
leading run of non-whitespace characters. -/
theorem takeWhile_dropTrailingWs (l : List Char) :
    (dropTrailingWs l).takeWhile (fun c => !(isWsChar c))
      = l.takeWhile (fun c => !(isWsChar c)) := by
  induction l with
  | nil => rfl
  | cons c t ih =>
    cases hdt : dropTrailingWs t with
    | nil =>
      rw [hdt] at ih
      by_cases hc : isWsChar c
      · simp [dropTrailingWs, hdt, hc, List.takeWhile_cons]
      · simp [dropTrailingWs, hdt, hc, List.takeWhile_cons, ← ih]
    | cons x xs =>
      rw [hdt] at ih
      by_cases hc : isWsChar c
      · simp [dropTrailingWs, hdt, hc, List.takeWhile_cons]
      · simp [dropTrailingWs, hdt, hc, List.takeWhile_cons, ih]

/-- Helper for C7: the token computed by `parseToolVersion` (trim, then
split at whitespace, then first piece) equals the first
whitespace-delimited token of the raw remainder. -/
theorem parse_token_eq (after : List Char) :
    (splitOnPredList isWsChar (trimList after)).headD []
      = (after.dropWhile isWsChar).takeWhile (fun c => !(isWsChar c)) := by
  rw [splitOnPredList_headD]
  unfold trimList
  exact takeWhile_dropTrailingWs (after.dropWhile isWsChar)

/-- C7: `parseToolVersion` succeeds with version `v` exactly when the
output has a `version:` marker followed by a whitespace-delimited
token that — after stripping an optional leading `v` — parses as the
semantic version `v`; in every other case it surfaces an error, so the
probe produces no `Ready` status. -/
theorem parseToolVersion_ok_iff (stdout : List Char) (v : SemVer) :
    parseToolVersion stdout = Except.ok v ↔
      ∃ t, specVersionToken stdout = some t ∧ semverParse t = some v := by
  simp only [parseToolVersion, specVersionToken]
  cases hidx : firstIndexOfList versionMarker (toLowerList stdout) with
  | none => simp
  | some i =>
    dsimp only
    rw [parse_token_eq]
    by_cases htok : ((stdout.drop (i + versionMarker.length)).dropWhile
        isWsChar).takeWhile (fun c => !(isWsChar c)) = []
    · simp only [htok]
      have h0 : semverParse (stripLeadingV []) = none := rfl
      simp [h0]
    · rw [if_neg htok]
      cases hsv : semverParse (stripLeadingV
          (((stdout.drop (i + versionMarker.length)).dropWhile
            isWsChar).takeWhile (fun c => !(isWsChar c)))) with
      | none => simp [hsv]
      | some w => simp [hsv]

/-- Helper for C6: filtering out empty strings does not change an `any`
whose predicate rejects the empty string. -/
theorem any_filter_pos (l : List (List Char)) (f : List Char → Bool)
    (hf : f [] = false) :
    (l.filter (fun v => 0 < v.length)).any f = l.any f := by
  induction l with
  | nil => rfl
  | cons x xs ih =>
    by_cases hx : 0 < x.length
    · simp only [List.filter_cons, List.any_cons, ih, decide_eq_true hx, if_pos]
    · have hxe : x = [] := by
        cases x with
        | nil => rfl
        | cons a t => simp at hx
      subst hxe
      simp [List.filter_cons, hf, ih]

/-- Helper for C6: `any` only depends on the pointwise values of its
predicate. -/
theorem any_ext (l : List (List Char)) (f g : List Char → Bool)
    (h : ∀ x, f x = g x) : l.any f = l.any g := by
  induction l with
  | nil => rfl
  | cons x xs ih => simp [List.any_cons, h x, ih]

/-- Helper for C6: the code's haystack scan and the claim's captured-
text phrase condition coincide. -/
theorem haystack_eq_specPhrase (e : ExecError) :
    haystackHasMissingPhrase e = specCapturedTextHasPhrase e := by
  unfold haystackHasMissingPhrase specCapturedTextHasPhrase missingPhraseTexts
    specCapturedTexts
  rw [List.any_map, any_filter_pos _ _ (by rfl)]
  apply any_ext
  intro t
  simp [Function.comp, specMissingPhrases, Bool.or_assoc]

/-- Helper for C6: the embedded classifier agrees with the claim's
missing-executable signal. -/
theorem errorLooksLike_eq_spec (e : ExecError) :
    errorLooksLikeMissingExecutable e = specMissingExecSignal e := by
  unfold errorLooksLikeMissingExecutable specMissingExecSignal
  by_cases h1 : strVal e.code = some "ENOENT".toList
      ∨ strVal e.errno = some "ENOENT".toList
  · rw [if_pos h1]
    rcases h1 with h | h <;> simp [h]
  · rw [if_neg h1]
    obtain ⟨ha, hb⟩ := not_or.mp h1
    by_cases h2 : numericExitCodeOf e = some 127 ∨ numericExitCodeOf e = some 9009
    · rw [if_pos h2]
      rcases h2 with h | h <;> simp [h, ha, hb]
    · rw [if_neg h2]
      obtain ⟨hc, hd⟩ := not_or.mp h2
      have hA : (strVal e.code == some "ENOENT".toList) = false :=
        beq_eq_false_iff_ne.mpr ha
      have hB : (strVal e.errno == some "ENOENT".toList) = false :=
        beq_eq_false_iff_ne.mpr hb
      have hC : (numericExitCodeOf e == some 127) = false :=
        beq_eq_false_iff_ne.mpr hc
      have hD : (numericExitCodeOf e == some 9009) = false :=
        beq_eq_false_iff_ne.mpr hd
      simp only [hA, hB, hC, hD, Bool.or_false, Bool.false_or]
      exact haystack_eq_specPhrase e

/-- C6: for every error thrown while invoking the tool, the status is
`Unavailable(executableNotFound)` exactly when the error carries a
missing-executable signal — `ENOENT` code, exit code 127/9009, or a
missing-command phrase in the captured text — and
`Unavailable(executionFailed)` in every other case. -/
theorem toolStatusByError_classification (e : ExecError) :
    (toolStatusByError e = ToolStatusE.unavailable .executableNotFound
        ↔ specMissingExecSignal e = true) ∧
    (toolStatusByError e = ToolStatusE.unavailable .executionFailed
        ↔ specMissingExecSignal e = false) := by
  unfold toolStatusByError
  simp only [errorLooksLike_eq_spec e]
  cases hs : specMissingExecSignal e <;> simp [hs]

/-- C2 counterexample: the claim fails on the trace
`[probeFail "shellcheck", configChange, probeFail "shellcheck"]` — the
second epoch has an effective missing-executable failure for the path,
yet no notification is shown, because `handleDidChangeConfiguration`
clears `settingsByUri` and `toolStatusByPath` but never clears
`notifiedMissingExecutable`. -/
theorem missingExecNotification_not_per_epoch :
    ¬ missingExecNotifiedOncePerEpoch := by
  intro h
  have hc := h
    [LintEvent.probeFail "shellcheck", LintEvent.configChange,
      LintEvent.probeFail "shellcheck"] "shellcheck" (0, true) (by decide)
  exact absurd hc (by decide)

/-- Helper for C2: once a path is in `notifiedMissingExecutable`, no
later event ever shows the notification for it again. -/
theorem notifCount_suppressed (p : String) (events : List LintEvent)
    (s : NotifierState) (h : s.notifiedMissingExecutable.contains p = true) :
    notifCount p s events = 0 := by
  induction events generalizing s with
  | nil => rfl
  | cons e rest ih =>
    simp only [notifCount]
    cases e with
    | configChange =>
      have hstep : notifierStep s LintEvent.configChange
          = (⟨[], s.notifiedMissingExecutable⟩, none) := rfl
      simp only [hstep]
      simpa using ih ⟨[], s.notifiedMissingExecutable⟩ h
    | probeFail q =>
      cases hq : s.toolStatusByPath.lookup q with
      | some st =>
        have hstep : notifierStep s (LintEvent.probeFail q) = (s, none) := by
          simp [notifierStep, hq]
        simp only [hstep]
        simpa using ih s h
      | none =>
        by_cases hsup : s.notifiedMissingExecutable.contains q = true
        · have hqmem : q ∈ s.notifiedMissingExecutable := by simpa using hsup
          have hstep : notifierStep s (LintEvent.probeFail q)
              = (⟨(q, ToolStatusE.unavailable .executableNotFound) :: s.toolStatusByPath,
                  s.notifiedMissingExecutable⟩, none) := by
            simp [notifierStep, hq, hqmem]
          simp only [hstep]
          simpa using ih
            ⟨(q, ToolStatusE.unavailable .executableNotFound) :: s.toolStatusByPath,
              s.notifiedMissingExecutable⟩ h
        · have hqp : ¬ q = p := fun he => hsup (by rw [he]; exact h)
          have hqnot : q ∉ s.notifiedMissingExecutable := by simpa using hsup
          have hstep : notifierStep s (LintEvent.probeFail q)
              = (⟨(q, ToolStatusE.unavailable .executableNotFound) :: s.toolStatusByPath,
                  q :: s.notifiedMissingExecutable⟩, some q) := by
            simp [notifierStep, hq, hqnot]
          simp only [hstep]
          have hpm : p ∈ s.notifiedMissingExecutable := by simpa using h
          have hcp : (q :: s.notifiedMissingExecutable).contains p = true := by
            have hor : p = q ∨ p ∈ s.notifiedMissingExecutable := Or.inr hpm
            simpa using hor
          simpa [hqp] using ih
            ⟨(q, ToolStatusE.unavailable .executableNotFound) :: s.toolStatusByPath,
              q :: s.notifiedMissingExecutable⟩ hcp

/-- Helper for C2: from any state in which the path has not yet been
notified, the total notification count is one when some effective
missing-executable failure occurs and zero otherwise. -/
theorem notifCount_fresh (p : String) (events : List LintEvent)
    (s : NotifierState) (h : s.notifiedMissingExecutable.contains p = false) :
    notifCount p s events
      = if hadEffectiveFailure p s events then 1 else 0 := by
  induction events generalizing s with
  | nil => rfl
  | cons e rest ih =>
    simp only [notifCount, hadEffectiveFailure]
    cases e with
    | configChange =>
      have hstep : notifierStep s LintEvent.configChange
          = (⟨[], s.notifiedMissingExecutable⟩, none) := rfl
      simp only [hstep]
      simpa [effectiveProbeFail] using ih ⟨[], s.notifiedMissingExecutable⟩ h
    | probeFail q =>
      cases hq : s.toolStatusByPath.lookup q with
      | some st =>
        have hstep : notifierStep s (LintEvent.probeFail q) = (s, none) := by
          simp [notifierStep, hq]
        simp only [hstep]
        simpa [effectiveProbeFail, hq] using ih s h
      | none =>
        by_cases hqp : q = p
        · subst hqp
          have hqnot : q ∉ s.notifiedMissingExecutable := by simpa using h
          have hstep : notifierStep s (LintEvent.probeFail q)
              = (⟨(q, ToolStatusE.unavailable .executableNotFound) :: s.toolStatusByPath,
                  q :: s.notifiedMissingExecutable⟩, some q) := by
            simp [notifierStep, hq, hqnot]
          simp only [hstep]
          have hsupp := notifCount_suppressed q rest
            ⟨(q, ToolStatusE.unavailable .executableNotFound) :: s.toolStatusByPath,
              q :: s.notifiedMissingExecutable⟩
            (by simp)
          simp [effectiveProbeFail, hq, hsupp]
        · have hself : (q == p) = false := by
            simp [hqp]
          by_cases hsup : s.notifiedMissingExecutable.contains q = true
          · have hqmem : q ∈ s.notifiedMissingExecutable := by simpa using hsup
            have hstep : notifierStep s (LintEvent.probeFail q)
                = (⟨(q, ToolStatusE.unavailable .executableNotFound) :: s.toolStatusByPath,
                    s.notifiedMissingExecutable⟩, none) := by
              simp [notifierStep, hq, hqmem]
            simp only [hstep]
            simpa [effectiveProbeFail, hself] using ih
              ⟨(q, ToolStatusE.unavailable .executableNotFound) :: s.toolStatusByPath,
                s.notifiedMissingExecutable⟩ h
          · have hqnot : q ∉ s.notifiedMissingExecutable := by simpa using hsup
            have hstep : notifierStep s (LintEvent.probeFail q)
                = (⟨(q, ToolStatusE.unavailable .executableNotFound) :: s.toolStatusByPath,
                    q :: s.notifiedMissingExecutable⟩, some q) := by
              simp [notifierStep, hq, hqnot]
            simp only [hstep]
            have hpn : p ∉ s.notifiedMissingExecutable := by simpa using h
            have hs : (q :: s.notifiedMissingExecutable).contains p = false := by
              have hor : ¬ (p = q ∨ p ∈ s.notifiedMissingExecutable) := by
                rintro (hpq | hpm)
                · exact hqp hpq.symm
                · exact hpn hpm
              simpa using hor
            simpa [effectiveProbeFail, hself, hqp] using ih
              ⟨(q, ToolStatusE.unavailable .executableNotFound) :: s.toolStatusByPath,
                q :: s.notifiedMissingExecutable⟩ hs

/-- C2 (amended): starting from a fresh provider, the
missing-executable notification for a path is shown exactly once over
the provider's whole lifetime — on the first effective
missing-executable failure for that path and never again, configuration
changes notwithstanding (they clear the settings and tool-status
caches, not the notified-path set). -/
theorem missingExecNotifiedOncePerLifetime (events : List LintEvent)
    (p : String) :
    notifCount p ⟨[], []⟩ events
      = if hadEffectiveFailure p ⟨[], []⟩ events then 1 else 0 :=
  notifCount_fresh p events ⟨[], []⟩ rfl

/-- Helper for C8: splitting never yields an empty list of segments. -/
theorem splitOnCharList_ne_nil (sep : Char) (l : List Char) :
    splitOnCharList sep l ≠ [] := by
  cases l with
  | nil => simp [splitOnCharList]
  | cons c t =>
    simp only [splitOnCharList]
    split
    · simp
    · split <;> simp

/-- Helper for C8: a segment without the separator stays whole. -/
theorem splitOnCharList_no_sep {sep : Char} {l : List Char} (h : sep ∉ l) :
    splitOnCharList sep l = [l] := by
  induction l with
  | nil => rfl
  | cons c t ih =>
    have hc : ¬ c = sep := fun hcc => h (by simp [hcc])
    have ht := ih (fun hm => h (List.mem_cons_of_mem _ hm))
    simp [splitOnCharList, ht, hc]

/-- Helper for C8: splitting peels off a separator-free first segment. -/
theorem splitOnCharList_append_sep {sep : Char} {A B : List Char} (h : sep ∉ A) :
    splitOnCharList sep (A ++ sep :: B) = A :: splitOnCharList sep B := by
  induction A with
  | nil =>
    simp only [List.nil_append]
    cases hB : splitOnCharList sep B with
    | nil => exact absurd hB (splitOnCharList_ne_nil sep B)
    | cons x xs => simp [splitOnCharList, hB]
  | cons c t ih =>
    have hc : ¬ c = sep := fun hcc => h (by simp [hcc])
    have ht := ih (fun hm => h (List.mem_cons_of_mem _ hm))
    simp [splitOnCharList, ht, hc]

/-- Helper for C8: taking as many elements as the `takeWhile` segment
recovers that segment. -/
theorem take_takeWhile_length (p : Char → Bool) (l : List Char) :
    l.take ((l.takeWhile p).length) = l.takeWhile p := by
  induction l with
  | nil => rfl
  | cons c t ih =>
    by_cases hc : p c
    · simp [List.takeWhile_cons, hc, ih]
    · simp [List.takeWhile_cons, hc]

/-- Helper for C8: dropping as many elements as the `takeWhile` segment
yields the `dropWhile` remainder. -/
theorem drop_takeWhile_length (p : Char → Bool) (l : List Char) :
    l.drop ((l.takeWhile p).length) = l.dropWhile p := by
  induction l with
  | nil => rfl
  | cons c t ih =>
    by_cases hc : p c
    · simp [List.takeWhile_cons, List.dropWhile_cons, hc, ih]
    · simp [List.takeWhile_cons, List.dropWhile_cons, hc]

/-- C8: the suppression command turns the target line into two lines:
first `<indent># shellcheck disable=<RULE>` — the comment preceded by
exactly the target line's leading whitespace — and then the original
target line unchanged; all other lines keep their place. -/
theorem disableCheckForLine_inserts_indented_comment
    (docLines : List (List Char)) (lineNo : Nat) (ruleId line : List Char)
    (hline : docLines[lineNo]? = some line)
    (hnlLine : '\n' ∉ line) (hnlRule : '\n' ∉ ruleId) :
    disableCheckForLine docLines lineNo ruleId =
      docLines.take lineNo
        ++ [line.takeWhile isWsChar ++ "# shellcheck disable=".toList ++ ruleId,
            line]
        ++ docLines.drop (lineNo + 1) := by
  have hA : '\n' ∉ (line.takeWhile isWsChar ++ ("# shellcheck disable=".toList ++ ruleId)) := by
    intro hm
    rcases List.mem_append.mp hm with h1 | h2
    · exact hnlLine ((List.takeWhile_prefix _).subset h1)
    · rcases List.mem_append.mp h2 with h3 | h4
      · exact absurd h3 (by decide)
      · exact hnlRule h4
  have hB : '\n' ∉ (line.takeWhile isWsChar ++ line.dropWhile isWsChar) := by
    rw [List.takeWhile_append_dropWhile]
    exact hnlLine
  have hgetD : docLines.getD lineNo [] = line := by
    simp [List.getD, hline]
  have hsplit : splitOnCharList '\n'
      (line.takeWhile isWsChar ++ ("# shellcheck disable=".toList ++ (ruleId ++ '\n' ::
        (line.takeWhile isWsChar ++ line.dropWhile isWsChar))))
      = [line.takeWhile isWsChar ++ ("# shellcheck disable=".toList ++ ruleId), line] := by
    have hassoc :
        line.takeWhile isWsChar ++ ("# shellcheck disable=".toList ++ (ruleId ++ '\n' ::
            (line.takeWhile isWsChar ++ line.dropWhile isWsChar)))
          = (line.takeWhile isWsChar ++ ("# shellcheck disable=".toList ++ ruleId))
              ++ '\n' :: (line.takeWhile isWsChar ++ line.dropWhile isWsChar) := by
      simp [List.append_assoc]
    rw [hassoc, splitOnCharList_append_sep hA, splitOnCharList_no_sep hB,
      List.takeWhile_append_dropWhile]
  simp only [disableCheckForLine, applyInsert, firstNonWhitespaceCharacterIndex, hgetD,
    Nat.zero_max, take_takeWhile_length, drop_takeWhile_length,
    List.append_assoc, List.cons_append]
  rw [hsplit]
  simp

/-- Concrete instantiation of
`disableCheckForLine_inserts_indented_comment`: on a line indented with
four spaces, the command inserts `# shellcheck disable=SC2086`
immediately above with the same four-space indent, and the line itself
is preserved. -/
theorem disableCheckForLine_witness :
    (["    echo $x".toList][0]? = some "    echo $x".toList) ∧
      '\n' ∉ "    echo $x".toList ∧ '\n' ∉ "SC2086".toList ∧
      disableCheckForLine ["    echo $x".toList] 0 "SC2086".toList
        = ["    # shellcheck disable=SC2086".toList, "    echo $x".toList] :=
  ⟨by decide, by decide, by decide,
    (disableCheckForLine_inserts_indented_comment ["    echo $x".toList] 0
        "SC2086".toList "    echo $x".toList (by decide) (by decide)
        (by decide)).trans (by decide)⟩

/-- Concrete instantiation of `setResultCollections_frame`: clearing one
document leaves another document's entries alone. -/
theorem setResultCollections_frame_witness :
    ("file:///b.sh" : String) ≠ "file:///a.sh" ∧
      (setResultCollections
            ⟨fun _ => some [⟨⟨⟨0, 0⟩, ⟨0, 1⟩⟩, "m", none⟩], fun _ => some []⟩
            "file:///a.sh" none).diagnostics "file:///b.sh"
          = some [⟨⟨⟨0, 0⟩, ⟨0, 1⟩⟩, "m", none⟩] ∧
      (setResultCollections
            ⟨fun _ => some [⟨⟨⟨0, 0⟩, ⟨0, 1⟩⟩, "m", none⟩], fun _ => some []⟩
            "file:///a.sh" none).codeActions "file:///b.sh"
          = some [] := by
  refine ⟨by decide, ?_, ?_⟩
  · exact (setResultCollections_frame
      ⟨fun _ => some [⟨⟨⟨0, 0⟩, ⟨0, 1⟩⟩, "m", none⟩], fun _ => some []⟩
      "file:///a.sh" none "file:///b.sh" (by decide)).1
  · exact (setResultCollections_frame
      ⟨fun _ => some [⟨⟨⟨0, 0⟩, ⟨0, 1⟩⟩, "m", none⟩], fun _ => some []⟩
      "file:///a.sh" none "file:///b.sh" (by decide)).2

end VscodeShell
